import Mathlib

/-!
Shallow embedding of the `tudu` task manager's core logic
(`src/todo/group.rs`, `src/todo/command.rs`, `src/todo/sql.rs`,
`src/project/command.rs`, `src/arg.rs`, `src/error.rs`) together with
theorems settling the specification claims about it.

Modelling conventions:
* machine integers (`i32`) are modelled as `Int` (no overflow is exercised
  by the modelled code paths);
* `chrono::NaiveDateTime` values are modelled as `Int` timestamps;
* the SQLite `todos` table is modelled as a `List Todo`; a diesel
  transaction is modelled as an `Except`-returning state transformer whose
  error case leaves the table unchanged (rollback);
* `std::collections::HashMap<i32, Vec<Todo>>` is modelled as an association
  list; the code only ever accesses it by key (`entry`, `contains_key`,
  `remove`) or sorts each bucket independently (`values_mut`), so the
  (unspecified) iteration order of the hash map is unobservable and an
  association list is a faithful model;
* Rust's stable `sort_by` is modelled by `List.insertionSort`, which is the
  stable sort with respect to the translated comparator (a stable sort for
  a total preorder is unique, so any stable algorithm computes it).
-/

namespace Tudu

open List

/-- `TodoStatus` from `src/todo/sql.rs` (`repr(i32)`, variants in source order). -/
inductive TodoStatus where
  | toDo
  | inProgress
  | done
  | blocked
  | onHold
  | cancelled
deriving DecidableEq, Repr

/-- `TodoPriority` from `src/todo/sql.rs` (`repr(i32)`, variants in source order). -/
inductive TodoPriority where
  | low
  | medium
  | high
  | urgent
deriving DecidableEq, Repr

/-- The explicit `repr(i32)` discriminant of each status variant (`ToDo = 0`, …). -/
def statusOrd : TodoStatus → Int
  | .toDo => 0
  | .inProgress => 1
  | .done => 2
  | .blocked => 3
  | .onHold => 4
  | .cancelled => 5

/-- The explicit `repr(i32)` discriminant of each priority variant (`Low = 0`, …). -/
def priorityOrd : TodoPriority → Int
  | .low => 0
  | .medium => 1
  | .high => 2
  | .urgent => 3

/-- `impl Default for TodoStatus` in `src/todo/sql.rs`. -/
def TodoStatus.default : TodoStatus := .toDo

/-- `impl Default for TodoPriority` in `src/todo/sql.rs`. -/
def TodoPriority.default : TodoPriority := .medium

/-- The `Todo` record from `src/todo/sql.rs`, one field per column. -/
structure Todo where
  id : Int
  project_id : Int
  parent_id : Option Int
  title : String
  description : Option String
  status : TodoStatus
  priority : TodoPriority
  due_date : Option Int
  estimated_minutes : Option Int
  location : Option String
  url : Option String
  created_at : Option Int
  updated_at : Option Int
  completed_at : Option Int
deriving DecidableEq, Repr

/-- `i32::cmp`, used by the derived `Ord` on the two enums. -/
def cmpI (a b : Int) : Ordering :=
  if a < b then .lt else if b < a then .gt else .eq

/-- The comparator of `organize_todos_hierarchically` (`src/todo/group.rs`):
`b.priority.cmp(&a.priority).then_with(|| a.status.cmp(&b.status))`
(priority descending, then status ascending on the derived enum order). -/
def todoCmp (a b : Todo) : Ordering :=
  (cmpI (priorityOrd b.priority) (priorityOrd a.priority)).then
    (cmpI (statusOrd a.status) (statusOrd b.status))

/-- `a` may precede `b` in a list sorted by `todoCmp` (the comparator does
not answer `Greater`). -/
def todoLe (a b : Todo) : Bool :=
  match todoCmp a b with
  | .gt => false
  | _ => true

theorem cmpI_eq_lt {a b : Int} : cmpI a b = .lt ↔ a < b := by
  unfold cmpI
  split <;> rename_i h
  · simp [h]
  · split <;> rename_i h2 <;> simp <;> omega

theorem cmpI_eq_gt {a b : Int} : cmpI a b = .gt ↔ b < a := by
  unfold cmpI
  split <;> rename_i h
  · simp; omega
  · split <;> rename_i h2 <;> simp <;> omega

theorem cmpI_eq_eq {a b : Int} : cmpI a b = .eq ↔ a = b := by
  unfold cmpI
  split <;> rename_i h
  · simp; omega
  · split <;> rename_i h2 <;> simp <;> omega

theorem then_ne_gt {o₁ o₂ : Ordering} :
    o₁.then o₂ ≠ .gt ↔ (o₁ = .lt ∨ (o₁ = .eq ∧ o₂ ≠ .gt)) := by
  cases o₁ <;> cases o₂ <;> decide

theorem todoLe_iff {a b : Todo} :
    todoLe a b = true ↔
      (priorityOrd b.priority < priorityOrd a.priority ∨
        (priorityOrd a.priority = priorityOrd b.priority ∧
          statusOrd a.status ≤ statusOrd b.status)) := by
  have h : todoLe a b = true ↔ todoCmp a b ≠ .gt := by
    unfold todoLe; rcases todoCmp a b with _ | _ | _ <;> simp
  rw [h]
  unfold todoCmp
  rw [then_ne_gt, cmpI_eq_lt, cmpI_eq_eq]
  simp only [ne_eq, cmpI_eq_gt]
  omega

theorem todoLe_trans {a b c : Todo} (h₁ : todoLe a b) (h₂ : todoLe b c) :
    todoLe a c := by
  rw [todoLe_iff] at *
  omega

theorem todoLe_total (a b : Todo) : todoLe a b || todoLe b a := by
  by_cases h : todoLe a b = true
  · simp [h]
  · rw [todoLe_iff] at h
    have h' : todoLe b a = true := by rw [todoLe_iff]; omega
    simp [h']

/-- Priority ordinals are distinct, so ordinal equality is variant equality. -/
theorem priorityOrd_inj {p q : TodoPriority} (h : priorityOrd p = priorityOrd q) :
    p = q := by
  cases p <;> cases q <;> first | rfl | (exfalso; simp [priorityOrd] at h)

/-- `todoLe` as a relation, for use with `List.insertionSort`. -/
def todoLeP (a b : Todo) : Prop := todoLe a b = true

instance : DecidableRel todoLeP := fun a b =>
  inferInstanceAs (Decidable (todoLe a b = true))

instance : IsTotal Todo todoLeP :=
  ⟨fun a b => by
    have h := todoLe_total a b
    rcases Bool.or_eq_true _ _ |>.mp h with h' | h'
    · exact Or.inl h'
    · exact Or.inr h'⟩

instance : IsTrans Todo todoLeP :=
  ⟨fun _ _ _ h₁ h₂ => todoLe_trans h₁ h₂⟩

/-- A `TodoGroup` from `src/todo/group.rs`: a main todo with its sub-todos. -/
structure TodoGroup where
  main_todo : Todo
  subtodos : List Todo
deriving DecidableEq, Repr

/-- The `subtodos_map : HashMap<i32, Vec<Todo>>`, modelled as an association
list from parent id to the bucket of children in arrival order. -/
abbrev SubMap := List (Int × List Todo)

/-- One step of `subtodos_map.entry(parent_id).or_insert_with(Vec::new).push(todo)`,
for a todo that arrives BEFORE every todo already recorded in `sm` (the
recursion in `splitTodos` processes the tail first, so the new todo is
prepended to its bucket). -/
def consSub : SubMap → Int → Todo → SubMap
  | [], k, t => [(k, [t])]
  | (k', l) :: rest, k, t =>
    if k' = k then (k', t :: l) :: rest else (k', l) :: consSub rest k t

/-- Bucket lookup; a missing key yields the empty bucket. -/
def getSub : SubMap → Int → List Todo
  | [], _ => []
  | (k', l) :: rest, k => if k' = k then l else getSub rest k

/-- `HashMap::contains_key`. -/
def containsKey : SubMap → Int → Bool
  | [], _ => false
  | (k', _) :: rest, k => k' == k || containsKey rest k

/-- `HashMap::remove`: the removed bucket (if any) and the remaining map. -/
def removeSub : SubMap → Int → Option (List Todo) × SubMap
  | [], _ => (none, [])
  | (k', l) :: rest, k =>
    if k' = k then (some l, rest)
    else
      let r := removeSub rest k
      (r.1, (k', l) :: r.2)

/-- The first loop of `organize_todos_hierarchically`: separate main todos
(in arrival order) from subtodos (bucketed by `parent_id`, each bucket in
arrival order). -/
def splitTodos : List Todo → List Todo × SubMap
  | [] => ([], [])
  | t :: ts =>
    let r := splitTodos ts
    match t.parent_id with
    | none => (t :: r.1, r.2)
    | some k => (r.1, consSub r.2 k t)

/-- Rust's stable `sort_by` with the priority-descending / status-ascending
comparator.  A stable sort for a total preorder is unique, so the stable
`List.insertionSort` computes exactly what `Vec::sort_by` computes. -/
def sortTodos (l : List Todo) : List Todo :=
  l.insertionSort todoLeP

/-- The `for subtodos in subtodos_map.values_mut()` loop: sort every bucket. -/
def sortSubMap (sm : SubMap) : SubMap :=
  sm.map (fun kv => (kv.1, sortTodos kv.2))

/-- The final loop of `organize_todos_hierarchically`: one group per sorted
main todo, consuming (`HashMap::remove`) the bucket keyed by its id. -/
def buildGroups : List Todo → SubMap → List TodoGroup
  | [], _ => []
  | m :: ms, sm =>
    let r := removeSub sm m.id
    { main_todo := m, subtodos := r.1.getD [] } :: buildGroups ms r.2

/-- `organize_todos_hierarchically` from `src/todo/group.rs`. -/
def organize_todos_hierarchically (todos : List Todo) : List TodoGroup :=
  let p := splitTodos todos
  buildGroups (sortTodos p.1) (sortSubMap p.2)

/-- `FlatTodo` from `src/todo/group.rs`. -/
structure FlatTodo where
  todo : Todo
  depth : Nat
  is_main_todo : Bool
  has_subtodos : Bool
deriving DecidableEq, Repr

/-- `FlatTodo::new_main`. -/
def FlatTodo.new_main (todo : Todo) (has : Bool) : FlatTodo :=
  { todo := todo, depth := 0, is_main_todo := true, has_subtodos := has }

/-- `FlatTodo::new_sub`. -/
def FlatTodo.new_sub (todo : Todo) (depth : Nat) : FlatTodo :=
  { todo := todo, depth := depth, is_main_todo := false, has_subtodos := false }

/-- The final loop of `organize_todos_flat_hierarchically`: for each sorted
main todo, emit it (checking `contains_key` for the `has_subtodos` flag),
then consume and emit its bucket at depth 1. -/
def buildFlat : List Todo → SubMap → List FlatTodo
  | [], _ => []
  | m :: ms, sm =>
    let has := containsKey sm m.id
    let r := removeSub sm m.id
    FlatTodo.new_main m has ::
      ((r.1.getD []).map (fun s => FlatTodo.new_sub s 1) ++ buildFlat ms r.2)

/-- `organize_todos_flat_hierarchically` from `src/todo/group.rs`. -/
def organize_todos_flat_hierarchically (todos : List Todo) : List FlatTodo :=
  let p := splitTodos todos
  buildFlat (sortTodos p.1) (sortSubMap p.2)

/-- The flattening of a group sequence (each main todo followed by its
children), as described by the idempotence claim. -/
def flattenGroups (gs : List TodoGroup) : List Todo :=
  gs.flatMap (fun g => g.main_todo :: g.subtodos)

/-! ### Properties of the `SubMap` association-list model -/

/-- Keys of the map are pairwise distinct. -/
def keysNodup (sm : SubMap) : Prop := (sm.map Prod.fst).Nodup

/-- Every bucket of the map is non-empty (buckets are only created by a push). -/
def bucketsNE (sm : SubMap) : Prop := ∀ kv ∈ sm, kv.2 ≠ []

/-- Every todo in a bucket carries the bucket's key as its `parent_id`. -/
def bucketsKeyed (sm : SubMap) : Prop := ∀ kv ∈ sm, ∀ t ∈ kv.2, t.parent_id = some kv.1

theorem getSub_consSub (sm : SubMap) (k : Int) (t : Todo) (k' : Int) :
    getSub (consSub sm k t) k' = if k' = k then t :: getSub sm k' else getSub sm k' := by
  induction sm with
  | nil =>
    simp only [consSub, getSub]
    split <;> split <;> simp_all
  | cons kv rest ih =>
    obtain ⟨k'', l⟩ := kv
    simp only [consSub]
    by_cases h : k'' = k
    · subst h
      simp only [if_pos rfl, getSub]
      by_cases h2 : k'' = k'
      · subst h2; simp
      · have h3 : ¬k' = k'' := fun h' => h2 h'.symm
        simp [h2, h3]
    · simp only [if_neg h, getSub]
      by_cases h2 : k'' = k'
      · subst h2
        have h3 : ¬k'' = k := h
        simp [h3, ih]
      · simp [h2, ih]

theorem containsKey_iff_mem (sm : SubMap) (k : Int) :
    containsKey sm k = true ↔ k ∈ sm.map Prod.fst := by
  induction sm with
  | nil => simp [containsKey]
  | cons kv rest ih =>
    simp only [containsKey, List.map_cons, List.mem_cons, Bool.or_eq_true, beq_iff_eq, ih]
    constructor
    · rintro (h | h)
      · exact Or.inl h.symm
      · exact Or.inr h
    · rintro (h | h)
      · exact Or.inl h.symm
      · exact Or.inr h

theorem keys_consSub (sm : SubMap) (k : Int) (t : Todo) :
    (consSub sm k t).map Prod.fst =
      if containsKey sm k then sm.map Prod.fst else sm.map Prod.fst ++ [k] := by
  induction sm with
  | nil => simp [consSub, containsKey]
  | cons kv rest ih =>
    obtain ⟨k'', l⟩ := kv
    simp only [consSub, containsKey]
    by_cases h : k'' = k
    · simp [h]
    · have hbeq : (k'' == k) = false := by simp [h]
      simp only [if_neg h, List.map_cons, hbeq, Bool.false_or, ih]
      split <;> simp

theorem getSub_eq_nil_of_not_contains {sm : SubMap} {k : Int}
    (h : containsKey sm k = false) : getSub sm k = [] := by
  induction sm with
  | nil => rfl
  | cons kv rest ih =>
    obtain ⟨k'', l⟩ := kv
    simp only [containsKey, Bool.or_eq_false_iff, beq_eq_false_iff_ne] at h
    simp only [getSub, if_neg (fun h' : k'' = k => h.1 h'), ih h.2]

theorem containsKey_iff_getSub_ne {sm : SubMap} (hne : bucketsNE sm) (k : Int) :
    containsKey sm k = true ↔ getSub sm k ≠ [] := by
  induction sm with
  | nil => simp [containsKey, getSub]
  | cons kv rest ih =>
    obtain ⟨k'', l⟩ := kv
    have hl : l ≠ [] := hne (k'', l) (List.mem_cons_self _ _)
    have hne' : bucketsNE rest := fun kv h => hne kv (List.mem_cons_of_mem _ h)
    simp only [containsKey, getSub, Bool.or_eq_true, beq_iff_eq]
    by_cases h : k'' = k
    · simp [h, hl]
    · simp [h, ih hne', fun h' : k'' = k => h h']

theorem getSub_mem {sm : SubMap} {k : Int} (h : getSub sm k ≠ []) :
    (k, getSub sm k) ∈ sm := by
  induction sm with
  | nil => simp [getSub] at h
  | cons kv rest ih =>
    obtain ⟨k'', l⟩ := kv
    by_cases h2 : k'' = k
    · subst h2
      simp [getSub] at h ⊢
    · simp only [getSub, if_neg h2] at h ⊢
      exact List.mem_cons_of_mem _ (ih h)

/-! ### Characterization of `splitTodos` -/

theorem splitTodos_fst (ts : List Todo) :
    (splitTodos ts).1 = ts.filter (fun t => t.parent_id.isNone) := by
  induction ts with
  | nil => rfl
  | cons t ts ih =>
    simp only [splitTodos]
    cases h : t.parent_id with
    | none => simp [List.filter_cons, h, ih]
    | some k => simp [List.filter_cons, h, ih]

theorem splitTodos_getSub (ts : List Todo) (k : Int) :
    getSub (splitTodos ts).2 k = ts.filter (fun t => t.parent_id == some k) := by
  induction ts with
  | nil => rfl
  | cons t ts ih =>
    simp only [splitTodos]
    cases h : t.parent_id with
    | none => simp [List.filter_cons, h, ih]
    | some k' =>
      simp only [getSub_consSub, List.filter_cons, h]
      by_cases h2 : k' = k
      · subst h2; simp [ih]
      · have h3 : ¬k = k' := fun h' => h2 h'.symm
        have h4 : ((some k' : Option Int) == some k) = false := by
          simp [h2]
        simp [h3, h4, ih]

theorem keysNodup_consSub {sm : SubMap} (h : keysNodup sm) (k : Int) (t : Todo) :
    keysNodup (consSub sm k t) := by
  unfold keysNodup at *
  rw [keys_consSub]
  split
  · exact h
  · rename_i hc
    rw [List.nodup_append]
    refine ⟨h, List.nodup_singleton k, ?_⟩
    intro a ha hb
    simp only [List.mem_singleton] at hb
    subst hb
    exact absurd ((containsKey_iff_mem sm a).mpr ha) (by simp [hc])

theorem bucketsNE_consSub {sm : SubMap} (h : bucketsNE sm) (k : Int) (t : Todo) :
    bucketsNE (consSub sm k t) := by
  induction sm with
  | nil =>
    intro kv hkv
    simp only [consSub, List.mem_singleton] at hkv
    subst hkv; simp
  | cons kv' rest ih =>
    obtain ⟨k'', l⟩ := kv'
    have hrest : bucketsNE rest := fun kv hkv => h kv (List.mem_cons_of_mem _ hkv)
    intro kv hkv
    simp only [consSub] at hkv
    by_cases h2 : k'' = k
    · simp only [if_pos h2] at hkv
      rcases List.mem_cons.mp hkv with h3 | h3
      · subst h3; simp
      · exact h kv (List.mem_cons_of_mem _ h3)
    · simp only [if_neg h2] at hkv
      rcases List.mem_cons.mp hkv with h3 | h3
      · subst h3; exact h _ (List.mem_cons_self _ _)
      · exact ih hrest kv h3

theorem bucketsKeyed_consSub {sm : SubMap} (h : bucketsKeyed sm) {k : Int} {t : Todo}
    (ht : t.parent_id = some k) : bucketsKeyed (consSub sm k t) := by
  induction sm with
  | nil =>
    intro kv hkv
    simp only [consSub, List.mem_singleton] at hkv
    subst hkv
    intro u hu
    simp only [List.mem_singleton] at hu
    subst hu; exact ht
  | cons kv' rest ih =>
    obtain ⟨k'', l⟩ := kv'
    have hrest : bucketsKeyed rest := fun kv hkv => h kv (List.mem_cons_of_mem _ hkv)
    intro kv hkv
    simp only [consSub] at hkv
    by_cases h2 : k'' = k
    · subst h2
      simp only [if_pos rfl] at hkv
      rcases List.mem_cons.mp hkv with h3 | h3
      · subst h3
        intro u hu
        rcases List.mem_cons.mp hu with h4 | h4
        · subst h4; exact ht
        · exact h _ (List.mem_cons_self _ _) u h4
      · exact h kv (List.mem_cons_of_mem _ h3)
    · simp only [if_neg h2] at hkv
      rcases List.mem_cons.mp hkv with h3 | h3
      · subst h3; exact h _ (List.mem_cons_self _ _)
      · exact ih hrest kv h3

theorem splitTodos_keysNodup (ts : List Todo) : keysNodup (splitTodos ts).2 := by
  induction ts with
  | nil => exact List.nodup_nil
  | cons t ts ih =>
    simp only [splitTodos]
    cases h : t.parent_id with
    | none => exact ih
    | some k => exact keysNodup_consSub ih k t

theorem splitTodos_bucketsNE (ts : List Todo) : bucketsNE (splitTodos ts).2 := by
  induction ts with
  | nil => intro kv hkv; simp [splitTodos] at hkv
  | cons t ts ih =>
    simp only [splitTodos]
    cases h : t.parent_id with
    | none => exact ih
    | some k => exact bucketsNE_consSub ih k t

theorem splitTodos_bucketsKeyed (ts : List Todo) : bucketsKeyed (splitTodos ts).2 := by
  induction ts with
  | nil => intro kv hkv; simp [splitTodos] at hkv
  | cons t ts ih =>
    simp only [splitTodos]
    cases h : t.parent_id with
    | none => exact ih
    | some k => exact bucketsKeyed_consSub ih h

/-! ### Properties of `removeSub` -/

theorem removeSub_fst (sm : SubMap) (k : Int) :
    (removeSub sm k).1 = if containsKey sm k then some (getSub sm k) else none := by
  induction sm with
  | nil => rfl
  | cons kv rest ih =>
    obtain ⟨k'', l⟩ := kv
    simp only [removeSub, containsKey, getSub]
    by_cases h : k'' = k
    · simp [h]
    · have hbeq : (k'' == k) = false := by simp [h]
      simp [h, hbeq, ih]

theorem removeSub_snd_of_not_contains {sm : SubMap} {k : Int}
    (h : containsKey sm k = false) : (removeSub sm k).2 = sm := by
  induction sm with
  | nil => rfl
  | cons kv rest ih =>
    obtain ⟨k'', l⟩ := kv
    simp only [containsKey, Bool.or_eq_false_iff, beq_eq_false_iff_ne] at h
    simp only [removeSub, if_neg h.1, ih h.2]

theorem getSub_removeSub_snd {sm : SubMap} (hnd : keysNodup sm) (k k' : Int) :
    getSub (removeSub sm k).2 k' = if k' = k then [] else getSub sm k' := by
  induction sm with
  | nil => simp [removeSub, getSub]
  | cons kv rest ih =>
    obtain ⟨k'', l⟩ := kv
    have hnd' : keysNodup rest := (List.nodup_cons.mp hnd).2
    have hk'' : k'' ∉ rest.map Prod.fst := (List.nodup_cons.mp hnd).1
    simp only [removeSub]
    by_cases h : k'' = k
    · subst h
      simp only [if_pos rfl]
      by_cases h2 : k' = k''
      · subst h2
        rw [if_pos rfl]
        have : containsKey rest k' = false := by
          rcases Bool.eq_false_or_eq_true (containsKey rest k') with hc | hc
          · exact absurd ((containsKey_iff_mem rest k').mp hc) hk''
          · exact hc
        exact getSub_eq_nil_of_not_contains this
      · have h3 : ¬k'' = k' := fun h' => h2 h'.symm
        simp [getSub, h2, h3]
    · simp only [if_neg h, getSub]
      by_cases h2 : k'' = k'
      · subst h2
        simp [h]
      · simp [h2, ih hnd']

theorem mem_removeSub_snd {sm : SubMap} {k : Int} {kv : Int × List Todo}
    (h : kv ∈ (removeSub sm k).2) : kv ∈ sm := by
  induction sm with
  | nil => simp [removeSub] at h
  | cons kv' rest ih =>
    obtain ⟨k'', l⟩ := kv'
    simp only [removeSub] at h
    by_cases h2 : k'' = k
    · simp only [if_pos h2] at h
      exact List.mem_cons_of_mem _ h
    · simp only [if_neg h2] at h
      rcases List.mem_cons.mp h with h3 | h3
      · subst h3; exact List.mem_cons_self _ _
      · exact List.mem_cons_of_mem _ (ih h3)

theorem keys_removeSub_sublist (sm : SubMap) (k : Int) :
    (removeSub sm k).2.map Prod.fst <+ sm.map Prod.fst := by
  induction sm with
  | nil => simp [removeSub]
  | cons kv rest ih =>
    obtain ⟨k'', l⟩ := kv
    simp only [removeSub]
    by_cases h : k'' = k
    · simp only [if_pos h, List.map_cons]
      exact (List.sublist_cons_self _ _)
    · simp only [if_neg h, List.map_cons]
      exact ih.cons₂ _

theorem keysNodup_removeSub {sm : SubMap} (h : keysNodup sm) (k : Int) :
    keysNodup (removeSub sm k).2 :=
  (keys_removeSub_sublist sm k).nodup h

theorem bucketsNE_removeSub {sm : SubMap} (h : bucketsNE sm) (k : Int) :
    bucketsNE (removeSub sm k).2 :=
  fun kv hkv => h kv (mem_removeSub_snd hkv)

theorem bucketsKeyed_removeSub {sm : SubMap} (h : bucketsKeyed sm) (k : Int) :
    bucketsKeyed (removeSub sm k).2 :=
  fun kv hkv => h kv (mem_removeSub_snd hkv)

/-! ### Properties of `sortSubMap` -/

theorem getSub_sortSubMap (sm : SubMap) (k : Int) :
    getSub (sortSubMap sm) k = sortTodos (getSub sm k) := by
  induction sm with
  | nil => rfl
  | cons kv rest ih =>
    obtain ⟨k'', l⟩ := kv
    simp only [sortSubMap, List.map_cons, getSub]
    by_cases h : k'' = k
    · simp [h]
    · simpa [h] using ih

theorem keys_sortSubMap (sm : SubMap) :
    (sortSubMap sm).map Prod.fst = sm.map Prod.fst := by
  induction sm with
  | nil => rfl
  | cons kv rest ih =>
    obtain ⟨k'', l⟩ := kv
    simp only [sortSubMap, List.map_cons] at ih ⊢
    rw [ih]

theorem keysNodup_sortSubMap {sm : SubMap} (h : keysNodup sm) :
    keysNodup (sortSubMap sm) := by
  unfold keysNodup
  rw [keys_sortSubMap]
  exact h

theorem sortTodos_perm (l : List Todo) : sortTodos l ~ l :=
  List.perm_insertionSort todoLeP l

theorem bucketsNE_sortSubMap {sm : SubMap} (h : bucketsNE sm) :
    bucketsNE (sortSubMap sm) := by
  intro kv hkv
  simp only [sortSubMap, List.mem_map] at hkv
  obtain ⟨kv', hkv', he2⟩ := hkv
  subst he2
  intro hnil
  have hnil' : sortTodos kv'.2 = [] := by simpa using hnil
  have hperm : kv'.2 ~ ([] : List Todo) := hnil' ▸ (sortTodos_perm kv'.2).symm
  exact h kv' hkv' hperm.eq_nil

theorem bucketsKeyed_sortSubMap {sm : SubMap} (h : bucketsKeyed sm) :
    bucketsKeyed (sortSubMap sm) := by
  intro kv hkv
  simp only [sortSubMap, List.mem_map] at hkv
  obtain ⟨kv', hkv', he2⟩ := hkv
  subst he2
  intro t ht
  exact h kv' hkv' t ((sortTodos_perm kv'.2).mem_iff.mp ht)

theorem containsKey_sortSubMap (sm : SubMap) (k : Int) :
    containsKey (sortSubMap sm) k = containsKey sm k := by
  induction sm with
  | nil => rfl
  | cons kv rest ih =>
    obtain ⟨k'', l⟩ := kv
    simp only [sortSubMap, List.map_cons, containsKey] at *
    rw [ih]

/-! ### Properties of the sort -/

theorem sortTodos_sorted (l : List Todo) : (sortTodos l).Pairwise todoLeP :=
  List.sorted_insertionSort todoLeP l

theorem sortTodos_of_sorted {l : List Todo} (h : l.Pairwise todoLeP) :
    sortTodos l = l :=
  List.Sorted.insertionSort_eq h

/-- Stability of the sort, phrased as commuting with a filter that selects a
class of mutually `todoLeP`-equivalent elements. -/
theorem sortTodos_filter_eq {c : Todo → Bool} (l : List Todo)
    (hc : ∀ a b, c a = true → c b = true → todoLeP a b) :
    (sortTodos l).filter c = l.filter c := by
  have hsub : l.filter c <+ l := List.filter_sublist l
  have hpw : (l.filter c).Pairwise todoLeP := by
    apply List.pairwise_of_forall_mem_list
    intro a ha b hb
    exact hc a b (List.of_mem_filter ha) (List.of_mem_filter hb)
  have hs : l.filter c <+ sortTodos l :=
    List.sublist_insertionSort hpw hsub
  have hff : (l.filter c).filter c = l.filter c := by
    rw [List.filter_filter]
    apply List.filter_congr
    intro a _
    cases h : c a <;> simp [h]
  have hs2 : l.filter c <+ (sortTodos l).filter c := by
    have h5 := hs.filter c
    rwa [hff] at h5
  have hperm : (sortTodos l).filter c ~ l.filter c := (sortTodos_perm l).filter c
  exact (hs2.eq_of_length hperm.length_eq.symm).symm

/-! ### Properties of `buildGroups` -/

theorem buildGroups_map_main (ms : List Todo) (sm : SubMap) :
    (buildGroups ms sm).map (fun g => g.main_todo) = ms := by
  induction ms generalizing sm with
  | nil => rfl
  | cons m ms ih => simp [buildGroups, ih]

theorem removeSub_fst_mem {sm : SubMap} {k : Int} {l : List Todo}
    (h : (removeSub sm k).1 = some l) : (k, l) ∈ sm := by
  induction sm with
  | nil => simp [removeSub] at h
  | cons kv rest ih =>
    obtain ⟨k'', l'⟩ := kv
    simp only [removeSub] at h
    by_cases h2 : k'' = k
    · subst h2
      simp only [if_pos rfl] at h
      cases h
      exact List.mem_cons_self _ _
    · simp only [if_neg h2] at h
      exact List.mem_cons_of_mem _ (ih h)

/-- Every group produced by `buildGroups` has its main todo from `ms` and its
subtodo list either empty or an entry of `sm` keyed by the main todo's id. -/
theorem buildGroups_mem {ms : List Todo} {sm : SubMap} {g : TodoGroup}
    (h : g ∈ buildGroups ms sm) :
    g.main_todo ∈ ms ∧ (g.subtodos = [] ∨ (g.main_todo.id, g.subtodos) ∈ sm) := by
  induction ms generalizing sm with
  | nil => simp [buildGroups] at h
  | cons m ms ih =>
    simp only [buildGroups] at h
    rcases List.mem_cons.mp h with h2 | h2
    · subst h2
      refine ⟨List.mem_cons_self _ _, ?_⟩
      cases hr : (removeSub sm m.id).1 with
      | none => simp [hr]
      | some l =>
        right
        simpa [hr] using removeSub_fst_mem hr
    · obtain ⟨h3, h4⟩ := ih h2
      refine ⟨List.mem_cons_of_mem _ h3, ?_⟩
      rcases h4 with h4 | h4
      · exact Or.inl h4
      · exact Or.inr (mem_removeSub_snd h4)

theorem removeSub_perm {sm : SubMap} {k : Int} (h : containsKey sm k = true) :
    sm ~ (k, getSub sm k) :: (removeSub sm k).2 := by
  induction sm with
  | nil => simp [containsKey] at h
  | cons kv rest ih =>
    obtain ⟨k'', l⟩ := kv
    simp only [containsKey, Bool.or_eq_true, beq_iff_eq] at h
    by_cases h2 : k'' = k
    · subst h2
      simp only [removeSub, if_pos rfl, getSub]
      simp
    · have h3 : containsKey rest k = true := by
        rcases h with h | h
        · exact absurd h h2
        · exact h
      simp only [removeSub, if_neg h2, getSub]
      exact ((ih h3).cons _).trans (List.Perm.swap _ _ _)

theorem removeSub_key_not_mem {sm : SubMap} (hnd : keysNodup sm) {k : Int}
    {kv : Int × List Todo} (hmem : kv ∈ (removeSub sm k).2) : kv.1 ≠ k := by
  induction sm with
  | nil => simp [removeSub] at hmem
  | cons kv' rest ih =>
    obtain ⟨k'', l⟩ := kv'
    have hnd' : keysNodup rest := (List.nodup_cons.mp hnd).2
    have hk'' : k'' ∉ rest.map Prod.fst := (List.nodup_cons.mp hnd).1
    simp only [removeSub] at hmem
    by_cases h2 : k'' = k
    · subst h2
      simp only [if_pos rfl] at hmem
      intro he
      exact hk'' (he ▸ List.mem_map_of_mem Prod.fst hmem)
    · simp only [if_neg h2] at hmem
      rcases List.mem_cons.mp hmem with h3 | h3
      · subst h3; exact h2
      · exact ih hnd' h3

/-- The children emitted by `buildGroups` are, as a multiset, exactly the
buckets of `sm` whose key is the id of some main todo in `ms`. -/
theorem buildGroups_children_perm {sm : SubMap} (hnd : keysNodup sm)
    (ms : List Todo) :
    ((buildGroups ms sm).map (fun g => g.subtodos)).flatten ~
      (sm.filter (fun kv => ms.any (fun m => m.id == kv.1))).flatMap Prod.snd := by
  induction ms generalizing sm with
  | nil => simp [buildGroups]
  | cons m ms ih =>
    simp only [buildGroups, List.map_cons, List.flatten_cons]
    cases hc : containsKey sm m.id with
    | false =>
      have hsnd : (removeSub sm m.id).2 = sm := removeSub_snd_of_not_contains hc
      have hfst : (removeSub sm m.id).1 = none := by rw [removeSub_fst, hc]; rfl
      rw [hfst, hsnd]
      simp only [Option.getD_none, List.nil_append]
      have hfeq : sm.filter (fun kv => (m :: ms).any (fun m' => m'.id == kv.1)) =
          sm.filter (fun kv => ms.any (fun m' => m'.id == kv.1)) := by
        apply List.filter_congr
        intro kv hkv
        simp only [List.any_cons]
        have hne : (m.id == kv.1) = false := by
          rw [beq_eq_false_iff_ne]
          intro he
          have hkm : kv.1 ∈ sm.map Prod.fst := List.mem_map_of_mem Prod.fst hkv
          rw [← he] at hkm
          exact absurd ((containsKey_iff_mem sm m.id).mpr hkm) (by simp [hc])
        rw [hne, Bool.false_or]
      rw [hfeq]
      exact ih hnd
    | true =>
      have hfst : (removeSub sm m.id).1 = some (getSub sm m.id) := by
        rw [removeSub_fst, hc]; rfl
      rw [hfst]
      simp only [Option.getD_some]
      have hperm := @removeSub_perm sm m.id hc
      have h1 : sm.filter (fun kv => (m :: ms).any (fun m' => m'.id == kv.1)) ~
          ((m.id, getSub sm m.id) :: (removeSub sm m.id).2).filter
            (fun kv => (m :: ms).any (fun m' => m'.id == kv.1)) :=
        hperm.filter _
      have h2 : ((m.id, getSub sm m.id) :: (removeSub sm m.id).2).filter
            (fun kv => (m :: ms).any (fun m' => m'.id == kv.1)) =
          (m.id, getSub sm m.id) ::
            ((removeSub sm m.id).2.filter (fun kv => ms.any (fun m' => m'.id == kv.1))) := by
        rw [List.filter_cons]
        simp only [List.any_cons, beq_self_eq_true, Bool.true_or, if_pos]
        congr 1
        apply List.filter_congr
        intro kv hkv
        have hne : (m.id == kv.1) = false := by
          rw [beq_eq_false_iff_ne]
          intro he
          exact removeSub_key_not_mem hnd hkv he.symm
        simp [List.any_cons, hne]
      have h3 := ih (keysNodup_removeSub hnd m.id)
      calc getSub sm m.id ++ ((buildGroups ms (removeSub sm m.id).2).map
              (fun g => g.subtodos)).flatten
          ~ getSub sm m.id ++ ((removeSub sm m.id).2.filter
              (fun kv => ms.any (fun m' => m'.id == kv.1))).flatMap Prod.snd :=
            List.Perm.append_left _ h3
        _ = ((m.id, getSub sm m.id) ::
              ((removeSub sm m.id).2.filter
                (fun kv => ms.any (fun m' => m'.id == kv.1)))).flatMap Prod.snd := by
            rw [List.flatMap_cons]
        _ = (((m.id, getSub sm m.id) :: (removeSub sm m.id).2).filter
              (fun kv => (m :: ms).any (fun m' => m'.id == kv.1))).flatMap Prod.snd := by
            rw [h2]
        _ ~ (sm.filter (fun kv => (m :: ms).any (fun m' => m'.id == kv.1))).flatMap
              Prod.snd := by
            have h4 : ((m.id, getSub sm m.id) :: (removeSub sm m.id).2).filter
                  (fun kv => (m :: ms).any (fun m' => m'.id == kv.1)) ~
                sm.filter (fun kv => (m :: ms).any (fun m' => m'.id == kv.1)) := h1.symm
            simpa only [List.flatMap] using (h4.map Prod.snd).flatten

theorem consSub_filter_flatMap (sm : SubMap) (k : Int) (t : Todo)
    (pred : Int → Bool) :
    ((consSub sm k t).filter (fun kv => pred kv.1)).flatMap Prod.snd ~
      (if pred k
        then t :: (sm.filter (fun kv => pred kv.1)).flatMap Prod.snd
        else (sm.filter (fun kv => pred kv.1)).flatMap Prod.snd) := by
  induction sm with
  | nil =>
    cases hp : pred k <;> simp [consSub, List.filter_cons, hp]
  | cons kv rest ih =>
    obtain ⟨k', l⟩ := kv
    by_cases h : k' = k
    · subst h
      simp only [consSub, if_pos rfl]
      cases hp : pred k' <;> simp [List.filter_cons, hp]
    · simp only [consSub, if_neg h]
      cases hp : pred k'
      · simp only [List.filter_cons, hp, if_neg Bool.false_ne_true]
        exact ih
      · simp only [List.filter_cons, hp, if_pos rfl, List.flatMap_cons]
        cases hpk : pred k
        · rw [hpk] at ih
          simp only [if_neg Bool.false_ne_true] at ih ⊢
          exact List.Perm.append_left _ ih
        · rw [hpk] at ih
          simp only [if_pos rfl] at ih ⊢
          exact (List.Perm.append_left _ ih).trans List.perm_middle

/-- The buckets of `splitTodos` whose keys satisfy `pred`, flattened,
are (as a multiset) exactly the children whose parent id satisfies `pred`. -/
theorem splitTodos_filter_flatMap (ts : List Todo) (pred : Int → Bool) :
    ((splitTodos ts).2.filter (fun kv => pred kv.1)).flatMap Prod.snd ~
      ts.filter (fun t => t.parent_id.any pred) := by
  induction ts with
  | nil => simp [splitTodos]
  | cons t ts ih =>
    simp only [splitTodos]
    cases h : t.parent_id with
    | none =>
      simp only [List.filter_cons, h, Option.any_none, if_neg Bool.false_ne_true]
      exact ih
    | some k =>
      have hcs := consSub_filter_flatMap (splitTodos ts).2 k t pred
      cases hp : pred k
      · rw [hp] at hcs
        simp only [Bool.false_eq_true, if_false] at hcs
        rw [List.filter_cons]
        simp only [h, Option.any_some, hp, Bool.false_eq_true, if_false]
        exact hcs.trans ih
      · rw [hp] at hcs
        simp only [if_true] at hcs
        rw [List.filter_cons]
        simp only [h, Option.any_some, hp, if_true]
        exact hcs.trans (ih.cons t)

/-! ### Sorted buckets, and invariant transfer to the groups -/

/-- Every bucket of the map is already sorted by the comparator. -/
def bucketsSorted (sm : SubMap) : Prop := ∀ kv ∈ sm, kv.2.Pairwise todoLeP

theorem bucketsSorted_sortSubMap (sm : SubMap) : bucketsSorted (sortSubMap sm) := by
  intro kv hkv
  simp only [sortSubMap, List.mem_map] at hkv
  obtain ⟨kv', _, he2⟩ := hkv
  subst he2
  exact sortTodos_sorted kv'.2

theorem bucketsSorted_removeSub {sm : SubMap} (h : bucketsSorted sm) (k : Int) :
    bucketsSorted (removeSub sm k).2 :=
  fun kv hkv => h kv (mem_removeSub_snd hkv)

theorem buildGroups_subtodos_sorted {ms : List Todo} {sm : SubMap}
    (hs : bucketsSorted sm) {g : TodoGroup} (hg : g ∈ buildGroups ms sm) :
    g.subtodos.Pairwise todoLeP := by
  rcases (buildGroups_mem hg).2 with h | h
  · rw [h]; exact List.Pairwise.nil
  · exact hs _ h

theorem buildGroups_subtodos_keyed {ms : List Todo} {sm : SubMap}
    (hk : bucketsKeyed sm) {g : TodoGroup} (hg : g ∈ buildGroups ms sm) :
    ∀ c ∈ g.subtodos, c.parent_id = some g.main_todo.id := by
  rcases (buildGroups_mem hg).2 with h | h
  · rw [h]; intro c hc; simp at hc
  · exact fun c hc => hk _ h c hc

/-! ### `buildGroups` only looks at buckets keyed by main ids -/

theorem buildGroups_congr (ms : List Todo) {sm₁ sm₂ : SubMap}
    (hnd₁ : keysNodup sm₁) (hnd₂ : keysNodup sm₂)
    (hne₁ : bucketsNE sm₁) (hne₂ : bucketsNE sm₂)
    (h : ∀ k, k ∈ ms.map (fun m => m.id) → getSub sm₁ k = getSub sm₂ k) :
    buildGroups ms sm₁ = buildGroups ms sm₂ := by
  induction ms generalizing sm₁ sm₂ with
  | nil => rfl
  | cons m ms ih =>
    have hg : getSub sm₁ m.id = getSub sm₂ m.id :=
      h m.id (by simp)
    have hc : containsKey sm₁ m.id = containsKey sm₂ m.id := by
      cases hc1 : containsKey sm₁ m.id
      · have h1 : getSub sm₁ m.id = [] := getSub_eq_nil_of_not_contains hc1
        cases hc2 : containsKey sm₂ m.id
        · rfl
        · have h2 := (containsKey_iff_getSub_ne hne₂ m.id).mp hc2
          rw [← hg] at h2
          exact absurd h1 h2
      · have h1 := (containsKey_iff_getSub_ne hne₁ m.id).mp hc1
        rw [hg] at h1
        cases hc2 : containsKey sm₂ m.id
        · exact absurd (getSub_eq_nil_of_not_contains hc2) h1
        · rfl
    simp only [buildGroups]
    have hfst : (removeSub sm₁ m.id).1 = (removeSub sm₂ m.id).1 := by
      rw [removeSub_fst, removeSub_fst, hc, hg]
    rw [hfst]
    congr 1
    apply ih (keysNodup_removeSub hnd₁ m.id) (keysNodup_removeSub hnd₂ m.id)
      (bucketsNE_removeSub hne₁ m.id) (bucketsNE_removeSub hne₂ m.id)
    intro k hk
    rw [getSub_removeSub_snd hnd₁, getSub_removeSub_snd hnd₂]
    by_cases h2 : k = m.id
    · simp [h2]
    · simp only [if_neg h2]
      exact h k (List.mem_cons_of_mem _ hk)

/-! ### The flattening of the built groups -/

theorem flattenGroups_filter_isNone {ms : List Todo} {sm : SubMap}
    (hm : ∀ m ∈ ms, m.parent_id = none) (hk : bucketsKeyed sm) :
    (flattenGroups (buildGroups ms sm)).filter (fun t => t.parent_id.isNone) = ms := by
  induction ms generalizing sm with
  | nil => rfl
  | cons m ms ih =>
    simp only [buildGroups, flattenGroups, List.flatMap_cons, List.filter_append]
    rw [List.filter_cons]
    have hmn : m.parent_id = none := hm m (List.mem_cons_self _ _)
    simp only [hmn, Option.isNone_none, if_true]
    have hsub : ((removeSub sm m.id).1.getD []).filter (fun t => t.parent_id.isNone) = [] := by
      rw [List.filter_eq_nil_iff]
      intro s hs
      cases hr : (removeSub sm m.id).1 with
      | none => rw [hr] at hs; simp at hs
      | some l =>
        rw [hr] at hs
        simp only [Option.getD_some] at hs
        have := hk _ (removeSub_fst_mem hr) s hs
        simp [this]
    rw [hsub]
    have ihr := ih (fun m' hm' => hm m' (List.mem_cons_of_mem _ hm'))
      (bucketsKeyed_removeSub hk m.id)
    simp only [flattenGroups] at ihr
    rw [ihr]
    rfl

theorem flattenGroups_filter_parent {ms : List Todo} {sm : SubMap}
    (hnd : keysNodup sm) (hk : bucketsKeyed sm)
    (hm : ∀ m ∈ ms, m.parent_id = none) (k : Int) :
    (flattenGroups (buildGroups ms sm)).filter (fun t => t.parent_id == some k) =
      if ms.any (fun m => m.id == k) then getSub sm k else [] := by
  induction ms generalizing sm with
  | nil => simp [buildGroups, flattenGroups]
  | cons m ms ih =>
    simp only [buildGroups, flattenGroups, List.flatMap_cons, List.filter_append]
    rw [List.filter_cons]
    have hmn : m.parent_id = none := hm m (List.mem_cons_self _ _)
    have hmf : (m.parent_id == some k) = false := by simp [hmn]
    simp only [hmf, Bool.false_eq_true, if_false]
    have ihr := ih (keysNodup_removeSub hnd m.id) (bucketsKeyed_removeSub hk m.id)
      (fun m' hm' => hm m' (List.mem_cons_of_mem _ hm'))
    simp only [flattenGroups] at ihr
    rw [ihr]
    by_cases h2 : m.id = k
    · subst h2
      have hrest : getSub (removeSub sm m.id).2 m.id = [] := by
        rw [getSub_removeSub_snd hnd]
        simp
      have hrf : (if ms.any (fun m' => m'.id == m.id) then getSub (removeSub sm m.id).2 m.id
          else []) = [] := by
        rw [hrest]; split <;> rfl
      rw [hrf, List.append_nil]
      have hany : (m :: ms).any (fun m' => m'.id == m.id) = true := by simp
      rw [hany, if_pos rfl]
      cases hc : containsKey sm m.id with
      | false =>
        have hfst : (removeSub sm m.id).1 = none := by rw [removeSub_fst, hc]; rfl
        rw [hfst, getSub_eq_nil_of_not_contains hc]
        rfl
      | true =>
        have hfst : (removeSub sm m.id).1 = some (getSub sm m.id) := by
          rw [removeSub_fst, hc]; rfl
        rw [hfst]
        simp only [Option.getD_some]
        rw [List.filter_eq_self]
        intro s hs
        have hp : s.parent_id = some m.id := by
          rcases List.eq_nil_or_concat (getSub sm m.id) with hnil | _
          · rw [hnil] at hs; simp at hs
          · exact hk _ (getSub_mem (by intro hx; rw [hx] at hs; simp at hs)) s hs
        simp [hp]
    · have hsubnil : ((removeSub sm m.id).1.getD []).filter
          (fun t => t.parent_id == some k) = [] := by
        rw [List.filter_eq_nil_iff]
        intro s hs
        cases hr : (removeSub sm m.id).1 with
        | none => rw [hr] at hs; simp at hs
        | some l =>
          rw [hr] at hs
          simp only [Option.getD_some] at hs
          have := hk _ (removeSub_fst_mem hr) s hs
          simp [this, h2]
      rw [hsubnil, List.nil_append]
      have hany : (m :: ms).any (fun m' => m'.id == k) = ms.any (fun m' => m'.id == k) := by
        simp [List.any_cons, h2]
      rw [hany]
      rw [getSub_removeSub_snd hnd]
      simp only [if_neg (fun h' : k = m.id => h2 h'.symm)]

/-! ### `buildFlat` refines `buildGroups` -/

/-- The flat rendering of a group sequence, as described by the
flat/grouped-agreement claim: each main todo (depth 0, `is_main_todo`,
`has_subtodos` iff its group has children) followed by its children
(depth 1, not main). -/
def flatOfGroups (gs : List TodoGroup) : List FlatTodo :=
  gs.flatMap (fun g =>
    FlatTodo.new_main g.main_todo (!g.subtodos.isEmpty) ::
      g.subtodos.map (fun s => FlatTodo.new_sub s 1))

theorem buildFlat_eq {ms : List Todo} {sm : SubMap} (hne : bucketsNE sm) :
    buildFlat ms sm = flatOfGroups (buildGroups ms sm) := by
  induction ms generalizing sm with
  | nil => rfl
  | cons m ms ih =>
    simp only [buildFlat, buildGroups, flatOfGroups, List.flatMap_cons]
    have hhas : containsKey sm m.id = !((removeSub sm m.id).1.getD []).isEmpty := by
      cases hc : containsKey sm m.id with
      | false =>
        have hfst : (removeSub sm m.id).1 = none := by rw [removeSub_fst, hc]; rfl
        rw [hfst]
        rfl
      | true =>
        have hfst : (removeSub sm m.id).1 = some (getSub sm m.id) := by
          rw [removeSub_fst, hc]; rfl
        rw [hfst]
        have hg := (containsKey_iff_getSub_ne hne m.id).mp hc
        simp only [Option.getD_some]
        cases hgs : getSub sm m.id with
        | nil => exact absurd hgs hg
        | cons a l => rfl
    rw [hhas]
    have ihr := ih (bucketsNE_removeSub hne m.id)
    simp only [flatOfGroups] at ihr
    rw [ihr]
    simp

/-! ### Organizer-level helper facts -/

theorem perm_any {α : Type} {l₁ l₂ : List α} (h : l₁ ~ l₂) (q : α → Bool) :
    l₁.any q = l₂.any q := by
  rw [Bool.eq_iff_iff, List.any_eq_true, List.any_eq_true]
  constructor
  · rintro ⟨x, hx, hq⟩; exact ⟨x, h.mem_iff.mp hx, hq⟩
  · rintro ⟨x, hx, hq⟩; exact ⟨x, h.mem_iff.mpr hx, hq⟩

theorem getSub_sorted {sm : SubMap} (hs : bucketsSorted sm) (k : Int) :
    (getSub sm k).Pairwise todoLeP := by
  by_cases h : getSub sm k = []
  · rw [h]; exact List.Pairwise.nil
  · exact hs _ (getSub_mem h)

theorem sortTodos_mains_parent_none (ts : List Todo) :
    ∀ m ∈ sortTodos (splitTodos ts).1, m.parent_id = none := by
  intro m hm
  rw [sortTodos] at hm
  have hm2 : m ∈ (splitTodos ts).1 := List.mem_insertionSort todoLeP |>.mp hm
  rw [splitTodos_fst] at hm2
  have h3 : m.parent_id.isNone = true := by
    simpa using List.of_mem_filter hm2
  exact Option.isNone_iff_eq_none.mp h3

theorem filter_sortSubMap_key (sm : SubMap) (pred : Int → Bool) :
    (sortSubMap sm).filter (fun kv => pred kv.1) =
      sortSubMap (sm.filter (fun kv => pred kv.1)) := by
  induction sm with
  | nil => rfl
  | cons kv rest ih =>
    obtain ⟨k, l⟩ := kv
    simp only [sortSubMap, List.map_cons, List.filter_cons]
    cases hp : pred k
    · simpa [sortSubMap] using ih
    · simpa [sortSubMap] using ih

theorem sortSubMap_flatMap_perm (sm : SubMap) :
    (sortSubMap sm).flatMap Prod.snd ~ sm.flatMap Prod.snd := by
  induction sm with
  | nil => exact List.Perm.refl _
  | cons kv rest ih =>
    obtain ⟨k, l⟩ := kv
    simp only [sortSubMap, List.map_cons, List.flatMap_cons]
    exact (sortTodos_perm l).append ih

/-- The claim's phrasing of the comparator's order: priority descending,
ties broken by status ascending on the fixed ordinals. -/
def specOrder (a b : Todo) : Prop :=
  priorityOrd b.priority < priorityOrd a.priority ∨
    (a.priority = b.priority ∧ statusOrd a.status ≤ statusOrd b.status)

theorem todoLeP_iff_specOrder {a b : Todo} : todoLeP a b ↔ specOrder a b := by
  unfold todoLeP specOrder
  rw [todoLe_iff]
  constructor
  · rintro (h | ⟨h1, h2⟩)
    · exact Or.inl h
    · exact Or.inr ⟨priorityOrd_inj h1, h2⟩
  · rintro (h | ⟨h1, h2⟩)
    · exact Or.inl h
    · exact Or.inr ⟨by rw [h1], h2⟩

/-- A concrete todo record used to instantiate theorems. -/
def sampleTodo (id : Int) (pid : Option Int) (st : TodoStatus) (pr : TodoPriority) : Todo :=
  { id := id, project_id := 1, parent_id := pid, title := "t", description := none,
    status := st, priority := pr, due_date := none, estimated_minutes := none,
    location := none, url := none, created_at := none, updated_at := none,
    completed_at := none }

/-- C1: in the output of `organize_todos_hierarchically` the main groups are
ordered by priority descending with ties broken by status ascending on the
fixed ordinals; ties beyond status keep arrival order (stable sort); and each
group's subtodo list is ordered by the same comparator. -/
theorem organize_main_groups_ordered (ts : List Todo) :
    ((organize_todos_hierarchically ts).map (fun g => g.main_todo)).Pairwise specOrder ∧
    (∀ p s,
      ((organize_todos_hierarchically ts).map (fun g => g.main_todo)).filter
          (fun t => t.priority == p && t.status == s) =
        ts.filter (fun t => t.parent_id.isNone && (t.priority == p && t.status == s))) ∧
    (∀ g ∈ organize_todos_hierarchically ts, g.subtodos.Pairwise specOrder) := by
  have hmap : (organize_todos_hierarchically ts).map (fun g => g.main_todo) =
      sortTodos (splitTodos ts).1 := buildGroups_map_main _ _
  refine ⟨?_, ?_, ?_⟩
  · rw [hmap]
    exact (sortTodos_sorted _).imp (fun h => todoLeP_iff_specOrder.mp h)
  · intro p s
    rw [hmap]
    have hc : ∀ a b : Todo, (a.priority == p && a.status == s) = true →
        (b.priority == p && b.status == s) = true → todoLeP a b := by
      intro a b ha hb
      simp only [Bool.and_eq_true, beq_iff_eq] at ha hb
      unfold todoLeP
      rw [todoLe_iff]
      right
      rw [ha.1, hb.1, ha.2, hb.2]
      exact ⟨rfl, le_refl _⟩
    rw [sortTodos_filter_eq _ hc, splitTodos_fst, List.filter_filter]
    apply List.filter_congr
    intro t _
    rw [Bool.and_comm]
  · intro g hg
    have hs := buildGroups_subtodos_sorted (bucketsSorted_sortSubMap (splitTodos ts).2) hg
    exact hs.imp (fun h => todoLeP_iff_specOrder.mp h)

theorem organize_main_groups_ordered_witness :
    ((organize_todos_hierarchically
        [sampleTodo 1 none .toDo .high, sampleTodo 2 (some 1) .toDo .low,
          sampleTodo 3 none .done .high]).map (fun g => g.main_todo)).Pairwise specOrder ∧
    (TodoGroup.mk (sampleTodo 1 none .toDo .high)
      [sampleTodo 2 (some 1) .toDo .low]).subtodos.Pairwise specOrder := by
  refine ⟨(organize_main_groups_ordered _).1, ?_⟩
  exact (organize_main_groups_ordered
      [sampleTodo 1 none .toDo .high, sampleTodo 2 (some 1) .toDo .low,
        sampleTodo 3 none .done .high]).2.2 _ (by decide)

/-- C3: every input record lands in exactly one place — as the main todo of a
group (iff its `parent_id` is empty, counted with multiplicity), as a child of
a group whose main id equals its `parent_id`, or dropped (iff its `parent_id`
matches no main candidate's id); nothing is duplicated or lost otherwise. -/
theorem organize_partitions_input (ts : List Todo) :
    ((organize_todos_hierarchically ts).map (fun g => g.main_todo)) ~
        ts.filter (fun t => t.parent_id.isNone) ∧
    (((organize_todos_hierarchically ts).map (fun g => g.subtodos)).flatten ~
        ts.filter (fun t => t.parent_id.any
          (fun p => (ts.filter (fun u => u.parent_id.isNone)).any (fun m => m.id == p)))) ∧
    (∀ g ∈ organize_todos_hierarchically ts, ∀ c ∈ g.subtodos,
        c.parent_id = some g.main_todo.id) := by
  have hmap : (organize_todos_hierarchically ts).map (fun g => g.main_todo) =
      sortTodos (splitTodos ts).1 := buildGroups_map_main _ _
  refine ⟨?_, ?_, ?_⟩
  · rw [hmap]
    exact (sortTodos_perm _).trans (by rw [splitTodos_fst])
  · have hnd : keysNodup (sortSubMap (splitTodos ts).2) :=
      keysNodup_sortSubMap (splitTodos_keysNodup ts)
    have h1 := buildGroups_children_perm hnd (sortTodos (splitTodos ts).1)
    have h2 := filter_sortSubMap_key (splitTodos ts).2
      (fun p => (sortTodos (splitTodos ts).1).any (fun m => m.id == p))
    have h3 := sortSubMap_flatMap_perm ((splitTodos ts).2.filter
      (fun kv => (sortTodos (splitTodos ts).1).any (fun m => m.id == kv.1)))
    have h4 := splitTodos_filter_flatMap ts
      (fun p => (sortTodos (splitTodos ts).1).any (fun m => m.id == p))
    have h5 : ts.filter (fun t => t.parent_id.any
          (fun p => (sortTodos (splitTodos ts).1).any (fun m => m.id == p))) =
        ts.filter (fun t => t.parent_id.any
          (fun p => (ts.filter (fun u => u.parent_id.isNone)).any (fun m => m.id == p))) := by
      apply List.filter_congr
      intro t _
      cases hpid : t.parent_id with
      | none => rfl
      | some p =>
        simp only [Option.any_some]
        rw [perm_any (sortTodos_perm (splitTodos ts).1) (fun m => m.id == p)]
        rw [splitTodos_fst]
    calc ((organize_todos_hierarchically ts).map (fun g => g.subtodos)).flatten
        ~ ((sortSubMap (splitTodos ts).2).filter
            (fun kv => (sortTodos (splitTodos ts).1).any (fun m => m.id == kv.1))).flatMap
            Prod.snd := h1
      _ = (sortSubMap ((splitTodos ts).2.filter
            (fun kv => (sortTodos (splitTodos ts).1).any (fun m => m.id == kv.1)))).flatMap
            Prod.snd := by rw [h2]
      _ ~ ((splitTodos ts).2.filter
            (fun kv => (sortTodos (splitTodos ts).1).any (fun m => m.id == kv.1))).flatMap
            Prod.snd := h3
      _ ~ ts.filter (fun t => t.parent_id.any
            (fun p => (sortTodos (splitTodos ts).1).any (fun m => m.id == p))) := h4
      _ = ts.filter (fun t => t.parent_id.any
            (fun p => (ts.filter (fun u => u.parent_id.isNone)).any
              (fun m => m.id == p))) := h5
  · intro g hg
    exact buildGroups_subtodos_keyed
      (bucketsKeyed_sortSubMap (splitTodos_bucketsKeyed ts)) hg

theorem organize_partitions_input_witness :
    ((organize_todos_hierarchically
        [sampleTodo 1 none .toDo .high, sampleTodo 2 (some 1) .toDo .low,
          sampleTodo 4 (some 99) .toDo .urgent]).map (fun g => g.main_todo)) ~
      [sampleTodo 1 none .toDo .high] ∧
    (∀ c ∈ (TodoGroup.mk (sampleTodo 1 none .toDo .high)
        [sampleTodo 2 (some 1) .toDo .low]).subtodos,
      c.parent_id = some (TodoGroup.mk (sampleTodo 1 none .toDo .high)
        [sampleTodo 2 (some 1) .toDo .low]).main_todo.id) := by
  constructor
  · have h := (organize_partitions_input
      [sampleTodo 1 none .toDo .high, sampleTodo 2 (some 1) .toDo .low,
        sampleTodo 4 (some 99) .toDo .urgent]).1
    have hf : List.filter (fun t => t.parent_id.isNone)
        [sampleTodo 1 none .toDo .high, sampleTodo 2 (some 1) .toDo .low,
          sampleTodo 4 (some 99) .toDo .urgent] =
        [sampleTodo 1 none .toDo .high] := by decide
    rw [hf] at h
    exact h
  · exact (organize_partitions_input
      [sampleTodo 1 none .toDo .high, sampleTodo 2 (some 1) .toDo .low,
        sampleTodo 4 (some 99) .toDo .urgent]).2.2 _ (by decide)

/-- C9: the organizer is idempotent on an already-sorted, already-valid
input: re-running it on the flattening of its own output (each main todo
followed by its children) reproduces the same sequence of groups. -/
theorem organize_idempotent_on_flattened (ts : List Todo) :
    organize_todos_hierarchically
        (flattenGroups (organize_todos_hierarchically ts)) =
      organize_todos_hierarchically ts := by
  have hmainsnone := sortTodos_mains_parent_none ts
  have hnd : keysNodup (sortSubMap (splitTodos ts).2) :=
    keysNodup_sortSubMap (splitTodos_keysNodup ts)
  have hne : bucketsNE (sortSubMap (splitTodos ts).2) :=
    bucketsNE_sortSubMap (splitTodos_bucketsNE ts)
  have hk : bucketsKeyed (sortSubMap (splitTodos ts).2) :=
    bucketsKeyed_sortSubMap (splitTodos_bucketsKeyed ts)
  have hsort : bucketsSorted (sortSubMap (splitTodos ts).2) :=
    bucketsSorted_sortSubMap (splitTodos ts).2
  have hfst : (splitTodos (flattenGroups
      (buildGroups (sortTodos (splitTodos ts).1) (sortSubMap (splitTodos ts).2)))).1 =
      sortTodos (splitTodos ts).1 := by
    rw [splitTodos_fst]
    exact flattenGroups_filter_isNone hmainsnone hk
  have hsorted_ms : (sortTodos (splitTodos ts).1).Pairwise todoLeP := sortTodos_sorted _
  show buildGroups
      (sortTodos (splitTodos (flattenGroups
        (buildGroups (sortTodos (splitTodos ts).1) (sortSubMap (splitTodos ts).2)))).1)
      (sortSubMap (splitTodos (flattenGroups
        (buildGroups (sortTodos (splitTodos ts).1) (sortSubMap (splitTodos ts).2)))).2) =
    buildGroups (sortTodos (splitTodos ts).1) (sortSubMap (splitTodos ts).2)
  rw [hfst, sortTodos_of_sorted hsorted_ms]
  apply buildGroups_congr (sortTodos (splitTodos ts).1)
    (keysNodup_sortSubMap (splitTodos_keysNodup _)) hnd
    (bucketsNE_sortSubMap (splitTodos_bucketsNE _)) hne
  intro k hkmem
  rw [getSub_sortSubMap, splitTodos_getSub]
  rw [flattenGroups_filter_parent hnd hk hmainsnone k]
  have hany : (sortTodos (splitTodos ts).1).any (fun m => m.id == k) = true := by
    rw [List.any_eq_true]
    obtain ⟨m, hm, hid⟩ := List.mem_map.mp hkmem
    exact ⟨m, hm, by simp [hid]⟩
  rw [hany, if_pos rfl]
  exact sortTodos_of_sorted (getSub_sorted hsort k)

/-- C10: the flat organizer agrees with the grouped organizer — the flat
output is, group by group in order, the main todo (depth 0, `is_main_todo`,
`has_subtodos` true exactly when the group's subtodo list is non-empty)
immediately followed by its subtodos (depth 1, not main). -/
theorem organize_flat_agrees_with_grouped (ts : List Todo) :
    organize_todos_flat_hierarchically ts =
      flatOfGroups (organize_todos_hierarchically ts) :=
  buildFlat_eq (bucketsNE_sortSubMap (splitTodos_bucketsNE ts))

/-! ### The error taxonomy (`src/error.rs`) -/

inductive TuduError where
  | InProgressError
  | CommandNotFoundError
  | CommandRequiredError
  | RequiredArgumentError
  | DatabaseError (msg : String)
  | UnSupportedError (msg : String)
deriving DecidableEq, Repr

/-- `impl From<diesel::result::Error> for TuduError` applied to
`diesel::result::Error::NotFound` (a query expected a row and found none). -/
def dieselNotFound : TuduError :=
  .DatabaseError "No rows were returned by a query expected to return at least one row."

instance {ε α : Type} [DecidableEq ε] [DecidableEq α] :
    DecidableEq (Except ε α) := fun x y =>
  match x, y with
  | .ok a, .ok b =>
    if h : a = b then isTrue (by rw [h])
    else isFalse (fun hc => h (Except.ok.inj hc))
  | .error a, .error b =>
    if h : a = b then isTrue (by rw [h])
    else isFalse (fun hc => h (Except.error.inj hc))
  | .ok _, .error _ => isFalse (fun hc => Except.noConfusion hc)
  | .error _, .ok _ => isFalse (fun hc => Except.noConfusion hc)

/-! ### Persistence encoding (`src/todo/sql.rs`) -/

/-- `ToSql` for `TodoStatus`: `*self as i32`, the `repr(i32)` discriminant. -/
def statusToSql (s : TodoStatus) : Int := statusOrd s

/-- `FromSql` for `TodoStatus`: the explicit `match` on the stored integer. -/
def statusFromSql (n : Int) : Except String TodoStatus :=
  if n = 0 then .ok .toDo
  else if n = 1 then .ok .inProgress
  else if n = 2 then .ok .done
  else if n = 3 then .ok .blocked
  else if n = 4 then .ok .onHold
  else if n = 5 then .ok .cancelled
  else .error "Unrecognized variant"

/-- `ToSql` for `TodoPriority`: `*self as i32`, the `repr(i32)` discriminant. -/
def priorityToSql (p : TodoPriority) : Int := priorityOrd p

/-- `FromSql` for `TodoPriority`: the explicit `match` on the stored integer. -/
def priorityFromSql (n : Int) : Except String TodoPriority :=
  if n = 0 then .ok .low
  else if n = 1 then .ok .medium
  else if n = 2 then .ok .high
  else if n = 3 then .ok .urgent
  else .error "Unrecognized variant"

/-! ### Creating a todo (`src/todo/command.rs`, `handle_new_todo_command`) -/

/-- `NewTodo` from `src/todo/sql.rs`. -/
structure NewTodo where
  project_id : Int
  parent_id : Option Int
  title : String
  description : Option String
  status : TodoStatus
  priority : TodoPriority
  due_date : Option Int
  estimated_minutes : Option Int
  location : Option String
  url : Option String
  created_at : Option Int
  updated_at : Option Int
  completed_at : Option Int
deriving DecidableEq, Repr

/-- The row produced by `insert_into(todos).values(new_todo).get_result`:
the store assigns the fresh id, the other columns come from the values. -/
def insertTodoRow (freshId : Int) (nt : NewTodo) : Todo :=
  { id := freshId, project_id := nt.project_id, parent_id := nt.parent_id,
    title := nt.title, description := nt.description, status := nt.status,
    priority := nt.priority, due_date := nt.due_date,
    estimated_minutes := nt.estimated_minutes, location := nt.location,
    url := nt.url, created_at := nt.created_at, updated_at := nt.updated_at,
    completed_at := nt.completed_at }

/-- The transaction body of `handle_new_todo_command`: when `parent_id` is
present, query the referenced parent's own `parent_id` (`first` on no row is
diesel `NotFound`); if that value is present, fail with the unsupported
operation error before any insert; otherwise insert the row. -/
def newTodoTransaction (db : List Todo) (freshId : Int) (nt : NewTodo) :
    Except TuduError (List Todo × Todo) :=
  match nt.parent_id with
  | some p =>
    match db.find? (fun t => t.id == p) with
    | none => .error dieselNotFound
    | some parent =>
      if parent.parent_id.isSome then
        .error (.UnSupportedError "Sub sub todos are not supported.")
      else
        .ok (db ++ [insertTodoRow freshId nt], insertTodoRow freshId nt)
  | none => .ok (db ++ [insertTodoRow freshId nt], insertTodoRow freshId nt)

/-- `handle_new_todo_command`: the check and the insert run in one
transaction; on error the transaction rolls back, leaving the table
unchanged. -/
def handle_new_todo_command (db : List Todo) (freshId : Int) (nt : NewTodo) :
    List Todo × Except TuduError Todo :=
  match newTodoTransaction db freshId nt with
  | .ok (db2, row) => (db2, .ok row)
  | .error e => (db, .error e)

/-! ### Closing a todo (`src/todo/command.rs`, `handle_close_todo_command`) -/

/-- `CloseTodo` from `src/todo/sql.rs`. -/
structure CloseTodo where
  id : Int
  updated_at : Int
  completed_at : Int
  status : TodoStatus
deriving DecidableEq, Repr

/-- `parse_close_todo_command_matches`: `chrono::Utc::now()` is called twice
(once for `updated_at`, then once for `completed_at`), modelled as two
successive readings of a clock stream indexed by call order. -/
def parse_close_todo_command_matches (id : Int) (clock : Nat → Int) : CloseTodo :=
  { id := id, updated_at := clock 0, status := TodoStatus.done,
    completed_at := clock 1 }

/-- Applying the `CloseTodo` changeset to a row (`AsChangeset`: every
non-key field is written). -/
def applyCloseTodo (c : CloseTodo) (t : Todo) : Todo :=
  { t with
    status := c.status,
    updated_at := some c.updated_at,
    completed_at := some c.completed_at }

/-- The transaction body of `handle_close_todo_command`:
`update(todos.filter(id.eq(close_todo.id))).set(close_todo).get_result`;
`NotFound` when no row matches. -/
def closeTodoTransaction (db : List Todo) (c : CloseTodo) :
    Except TuduError (List Todo × Todo) :=
  match db.find? (fun t => t.id == c.id) with
  | none => .error dieselNotFound
  | some t =>
    .ok (db.map (fun u => if u.id == c.id then applyCloseTodo c u else u),
      applyCloseTodo c t)

/-- `handle_close_todo_command`, with the same rollback model. -/
def handle_close_todo_command (db : List Todo) (id : Int) (clock : Nat → Int) :
    List Todo × Except TuduError Todo :=
  match closeTodoTransaction db (parse_close_todo_command_matches id clock) with
  | .ok (db2, row) => (db2, .ok row)
  | .error e => (db, .error e)

/-! ### Listing todos (`src/todo/command.rs`, `handle_list_todo_command`) -/

/-- `ListTodoFilters` from `src/todo/command.rs`. -/
structure ListTodoFilters where
  due_date : Option Int
  priority : Option TodoPriority
  status : Option TodoStatus
  greater_than : Bool
  less_than : Bool
deriving DecidableEq, Repr

/-- The boxed-query construction of `handle_list_todo_command`: start from
the whole table and `.filter` each supplied constraint in turn (SQL
three-valued logic: a row with NULL `due_date` satisfies no comparison). -/
def listTodoQuery (f : ListTodoFilters) : Todo → Bool :=
  let q : Todo → Bool := fun _ => true
  let q : Todo → Bool :=
    match f.due_date with
    | some d =>
      if f.greater_than then
        fun t => q t && (match t.due_date with
          | some d2 => decide (d < d2)
          | none => false)
      else if f.less_than then
        fun t => q t && (match t.due_date with
          | some d2 => decide (d2 < d)
          | none => false)
      else
        fun t => q t && (match t.due_date with
          | some d2 => d2 == d
          | none => false)
    | none => q
  let q : Todo → Bool :=
    match f.priority with
    | some p => fun t => q t && (t.priority == p)
    | none => q
  match f.status with
  | some s => fun t => q t && (t.status == s)
  | none => q

/-- `handle_list_todo_command`: load exactly the rows satisfying the
composed query. -/
def handle_list_todo_command (db : List Todo) (f : ListTodoFilters) : List Todo :=
  db.filter (listTodoQuery f)

/-! ### Viewing a project (`src/project/command.rs`, `handle_view_project_command`) -/

/-- `Project` from `src/project/sql.rs`. -/
structure Project where
  id : Int
  name : String
  description : Option String
  color : Option String
  created_at : Option Int
  updated_at : Option Int
deriving DecidableEq, Repr

/-- The todo working set loaded by the transaction of
`handle_view_project_command`: the single constraint is
`project_id.eq(view_project_id)` — no status or priority filter appears. -/
def viewProjectTodos (db : List Todo) (view_project_id : Int) : List Todo :=
  db.filter (fun t => t.project_id == view_project_id)

/-- The transaction of `handle_view_project_command`: the project row
(`NotFound` if absent) together with its todos; the handler then renders
`organize_todos_hierarchically` of that working set. -/
def viewProjectTransaction (projects : List Project) (db : List Todo)
    (view_project_id : Int) : Except TuduError (Project × List Todo) :=
  match projects.find? (fun pr => pr.id == view_project_id) with
  | none => .error dieselNotFound
  | some pr => .ok (pr, viewProjectTodos db view_project_id)

/-- The predicate the specification claims project-scoped viewing applies:
`(status != Done AND priority == threshold) OR (priority > threshold)`. -/
def specViewPredicate (threshold : TodoPriority) (t : Todo) : Bool :=
  (decide (t.status ≠ TodoStatus.done) && (t.priority == threshold)) ||
    decide (priorityOrd threshold < priorityOrd t.priority)

/-! ### Default priority of a new todo (`src/arg.rs`, `src/todo/command.rs`) -/

/-- clap `ValueEnum` parsing of a `TodoPriority` value name. -/
def parsePriorityValue : String → Option TodoPriority
  | "low" => some .low
  | "medium" => some .medium
  | "high" => some .high
  | "urgent" => some .urgent
  | _ => none

/-- What `matches.get_one::<TodoPriority>("priority")` yields for the
`new todo` command: the user-supplied value if present, otherwise clap's
declared `default_value("low")` run through the same value parser
(`TuduArg::Priority.into_arg`, `src/arg.rs`). -/
def priorityMatchValue (supplied : Option TodoPriority) : Option TodoPriority :=
  match supplied with
  | some p => some p
  | none => parsePriorityValue "low"

/-- The `priority` field computed by `parse_new_todo_command_matches`:
`priority.copied().unwrap_or_default()` with `Default` being `Medium`. -/
def parsedNewTodoPriority (supplied : Option TodoPriority) : TodoPriority :=
  (priorityMatchValue supplied).getD TodoPriority.default

/-! ### Concrete records for instantiating theorems -/

/-- A concrete `NewTodo` used to instantiate theorems. -/
def sampleNewTodo (pid : Option Int) : NewTodo :=
  { project_id := 1, parent_id := pid, title := "t", description := none,
    status := TodoStatus.default, priority := TodoPriority.default,
    due_date := none, estimated_minutes := none, location := none, url := none,
    created_at := none, updated_at := none, completed_at := none }

/-- A concrete todo with a due date, used to instantiate theorems. -/
def sampleTodoDue (id : Int) (due : Option Int) : Todo :=
  { sampleTodo id none TodoStatus.toDo TodoPriority.low with due_date := due }

/-- A concrete project used to instantiate theorems. -/
def sampleProject : Project :=
  { id := 1, name := "p", description := none, color := none,
    created_at := none, updated_at := none }

/-! ### Helper lemmas for the codec theorems -/

theorem statusFromSql_ok (n : Int) (s : TodoStatus) :
    statusFromSql n = .ok s ↔ n = statusOrd s := by
  unfold statusFromSql
  cases s <;> (simp [statusOrd]; split_ifs <;> simp_all)

theorem priorityFromSql_ok (n : Int) (p : TodoPriority) :
    priorityFromSql n = .ok p ↔ n = priorityOrd p := by
  unfold priorityFromSql
  cases p <;> (simp [priorityOrd]; split_ifs <;> simp_all)

theorem statusFromSql_err (n : Int) :
    statusFromSql n = .error "Unrecognized variant" ↔ (n < 0 ∨ 5 < n) := by
  unfold statusFromSql
  split_ifs <;> first | (simp_all; omega) | simp_all

theorem priorityFromSql_err (n : Int) :
    priorityFromSql n = .error "Unrecognized variant" ↔ (n < 0 ∨ 3 < n) := by
  unfold priorityFromSql
  split_ifs <;> first | (simp_all; omega) | simp_all

/-- C7: status/priority persistence encoding is the fixed ordinal map
(ToDo=0, InProgress=1, Done=2, Blocked=3, OnHold=4, Cancelled=5; Low=0,
Medium=1, High=2, Urgent=3); decoding returns the matching variant exactly
for these integers and an error — never a defaulted variant — for every
other integer. -/
theorem sql_encoding_is_fixed_ordinals :
    (statusToSql .toDo = 0 ∧ statusToSql .inProgress = 1 ∧ statusToSql .done = 2 ∧
      statusToSql .blocked = 3 ∧ statusToSql .onHold = 4 ∧ statusToSql .cancelled = 5) ∧
    (priorityToSql .low = 0 ∧ priorityToSql .medium = 1 ∧ priorityToSql .high = 2 ∧
      priorityToSql .urgent = 3) ∧
    (∀ n s, statusFromSql n = .ok s ↔ n = statusToSql s) ∧
    (∀ n p, priorityFromSql n = .ok p ↔ n = priorityToSql p) ∧
    (∀ n, statusFromSql n = .error "Unrecognized variant" ↔ (n < 0 ∨ 5 < n)) ∧
    (∀ n, priorityFromSql n = .error "Unrecognized variant" ↔ (n < 0 ∨ 3 < n)) :=
  ⟨⟨rfl, rfl, rfl, rfl, rfl, rfl⟩, ⟨rfl, rfl, rfl, rfl⟩,
    statusFromSql_ok, priorityFromSql_ok, statusFromSql_err, priorityFromSql_err⟩

/-- C2: creating a todo whose `parent_id` refers to a todo that itself has a
non-empty `parent_id` fails with the unsupported-operation error and leaves
the store unchanged (the check and the insert share one transaction, rolled
back on the error). -/
theorem new_todo_rejects_sub_sub (db : List Todo) (freshId : Int) (nt : NewTodo)
    (p : Int) (parent : Todo)
    (hp : nt.parent_id = some p)
    (hfind : db.find? (fun t => t.id == p) = some parent)
    (hpp : parent.parent_id ≠ none) :
    handle_new_todo_command db freshId nt =
      (db, .error (.UnSupportedError "Sub sub todos are not supported.")) := by
  have hs : parent.parent_id.isSome = true := by
    cases hq : parent.parent_id
    · exact absurd hq hpp
    · rfl
  unfold handle_new_todo_command newTodoTransaction
  simp [hp, hfind, hs]

theorem new_todo_rejects_sub_sub_witness :
    handle_new_todo_command
        [sampleTodo 1 none .toDo .medium, sampleTodo 2 (some 1) .toDo .medium]
        3 (sampleNewTodo (some 2)) =
      ([sampleTodo 1 none .toDo .medium, sampleTodo 2 (some 1) .toDo .medium],
        .error (.UnSupportedError "Sub sub todos are not supported.")) :=
  new_todo_rejects_sub_sub _ 3 _ 2 (sampleTodo 2 (some 1) .toDo .medium)
    rfl (by decide) (by decide)

/-- C6 counterexample: the two `chrono::Utc::now()` calls in
`parse_close_todo_command_matches` are separate clock readings; with a clock
that advances between them, `updated_at` differs from `completed_at`, so the
claim that they always carry the same timestamp is false. -/
theorem close_todo_same_timestamp_counterexample :
    (parse_close_todo_command_matches 1 (fun i => (i : Int))).updated_at ≠
      (parse_close_todo_command_matches 1 (fun i => (i : Int))).completed_at := by
  decide

/-- C6 (amended): closing a todo sets, in one transaction, its status to
Done, `updated_at` to the first clock reading taken during parsing, and
`completed_at` to the second reading; the two coincide only when the clock
does not advance between the calls. -/
theorem close_todo_sets_done_and_clock_times (db : List Todo) (id : Int)
    (clock : Nat → Int) (t : Todo)
    (hfind : db.find? (fun u => u.id == id) = some t) :
    handle_close_todo_command db id clock =
      (db.map (fun u => if u.id == id then
          { u with
            status := TodoStatus.done,
            updated_at := some (clock 0),
            completed_at := some (clock 1) } else u),
        .ok { t with
          status := TodoStatus.done,
          updated_at := some (clock 0),
          completed_at := some (clock 1) }) := by
  unfold handle_close_todo_command closeTodoTransaction
    parse_close_todo_command_matches applyCloseTodo
  simp [hfind]

theorem close_todo_sets_done_and_clock_times_witness :
    handle_close_todo_command [sampleTodo 1 none .toDo .medium] 1
        (fun i => (i : Int)) =
      ([{ sampleTodo 1 none .toDo .medium with
          status := TodoStatus.done,
          updated_at := some 0,
          completed_at := some 1 }],
        .ok { sampleTodo 1 none .toDo .medium with
          status := TodoStatus.done,
          updated_at := some 0,
          completed_at := some 1 }) := by
  have h := close_todo_sets_done_and_clock_times [sampleTodo 1 none .toDo .medium]
    1 (fun i => (i : Int)) (sampleTodo 1 none .toDo .medium) (by decide)
  exact h.trans (by decide)

/-- C4: the list operation composes its optional filters by logical AND —
with a due date D and the greater-than flag it returns exactly the records
with `due_date > D` intersected with any priority/status exact-match
constraints, and with no constraints at all it returns every record. -/
theorem list_todo_filters_compose_and (db : List Todo) :
    (∀ f D, f.due_date = some D → f.greater_than = true →
      handle_list_todo_command db f = db.filter (fun t =>
        (match t.due_date with | some d2 => decide (D < d2) | none => false) &&
        (match f.priority with | some p => t.priority == p | none => true) &&
        (match f.status with | some s => t.status == s | none => true))) ∧
    handle_list_todo_command db
      { due_date := none, priority := none, status := none,
        greater_than := false, less_than := false } = db := by
  constructor
  · intro f D hD hgt
    unfold handle_list_todo_command
    apply List.filter_congr
    intro t _
    simp only [listTodoQuery, hD, hgt]
    cases hp : f.priority <;> cases hs : f.status <;> cases hdd : t.due_date <;>
      simp [hp, hs, hdd]
  · exact List.filter_eq_self.mpr (fun a _ => rfl)

theorem list_todo_filters_compose_and_witness :
    handle_list_todo_command
        [sampleTodoDue 1 (some 5), sampleTodoDue 2 (some 10), sampleTodoDue 3 none]
        { due_date := some 7, priority := none, status := none,
          greater_than := true, less_than := false } =
      [sampleTodoDue 2 (some 10)] ∧
    handle_list_todo_command
        [sampleTodoDue 1 (some 5), sampleTodoDue 2 (some 10), sampleTodoDue 3 none]
        { due_date := none, priority := none, status := none,
          greater_than := false, less_than := false } =
      [sampleTodoDue 1 (some 5), sampleTodoDue 2 (some 10), sampleTodoDue 3 none] := by
  constructor
  · have h := (list_todo_filters_compose_and
      [sampleTodoDue 1 (some 5), sampleTodoDue 2 (some 10), sampleTodoDue 3 none]).1
      { due_date := some 7, priority := none, status := none,
        greater_than := true, less_than := false } 7 rfl rfl
    exact h.trans (by decide)
  · exact (list_todo_filters_compose_and
      [sampleTodoDue 1 (some 5), sampleTodoDue 2 (some 10), sampleTodoDue 3 none]).2

/-- C5 counterexample: the project view's working set keeps a Done/Low todo
of the project, which the claimed predicate
`(status != Done AND priority == threshold) OR (priority > threshold)`
excludes at every possible threshold — so the view does not apply that
predicate. -/
theorem view_project_predicate_counterexample :
    viewProjectTodos [sampleTodo 1 none .done .low] 1 =
        [sampleTodo 1 none .done .low] ∧
    [sampleTodo 1 none .done .low].filter (specViewPredicate .low) = [] ∧
    [sampleTodo 1 none .done .low].filter (specViewPredicate .medium) = [] ∧
    [sampleTodo 1 none .done .low].filter (specViewPredicate .high) = [] ∧
    [sampleTodo 1 none .done .low].filter (specViewPredicate .urgent) = [] := by
  decide

/-- C5 (amended): project-scoped viewing selects exactly the project's
records — the transaction's only constraint on todos is
`project_id = view_project_id`; no status or priority predicate is applied. -/
theorem view_project_selects_all_project_todos (projects : List Project)
    (db : List Todo) (pid : Int) (pr : Project)
    (hfind : projects.find? (fun q => q.id == pid) = some pr) :
    viewProjectTransaction projects db pid =
      .ok (pr, db.filter (fun t => t.project_id == pid)) ∧
    (∀ t ∈ viewProjectTodos db pid, t.project_id = pid) ∧
    (∀ t ∈ db, t.project_id = pid → t ∈ viewProjectTodos db pid) := by
  refine ⟨?_, ?_, ?_⟩
  · unfold viewProjectTransaction viewProjectTodos
    simp [hfind]
  · intro t ht
    have h2 : (t.project_id == pid) = true := by
      simpa using List.of_mem_filter ht
    exact beq_iff_eq.mp h2
  · intro t ht hpid
    exact List.mem_filter.mpr ⟨ht, by simp [hpid]⟩

theorem view_project_selects_all_project_todos_witness :
    viewProjectTransaction [sampleProject] [sampleTodo 1 none .done .low] 1 =
      .ok (sampleProject, [sampleTodo 1 none .done .low]) ∧
    (sampleTodo 1 none .done .low).project_id = 1 := by
  have h := view_project_selects_all_project_todos [sampleProject]
    [sampleTodo 1 none .done .low] 1 sampleProject (by decide)
  exact ⟨h.1.trans (by decide), h.2.1 _ (by decide)⟩

/-- C8 counterexample: a new todo created with no explicit priority receives
priority Low, not Medium — the argument layer declares `default_value("low")`,
so the parsing-side `unwrap_or_default()` (Medium) never fires. -/
theorem new_todo_default_priority_counterexample :
    parsedNewTodoPriority none ≠ TodoPriority.medium := by decide

/-- C8 (amended): a new todo created without an explicitly supplied priority
is created with priority Low (clap's `default_value("low")` fills the value
before the Medium fallback can apply); an explicitly supplied priority is
kept. -/
theorem new_todo_default_priority_low :
    parsedNewTodoPriority none = TodoPriority.low ∧
    (∀ p, parsedNewTodoPriority (some p) = p) :=
  ⟨rfl, fun _ => rfl⟩

end Tudu
